import Mathlib

/- Verification development for jinbeniyama/minor-planet-painter.

   Shallow embedding of src/minor_planet_painter/common.py and
   src/scripts/plot_sssb_xy.py.  Python strings are modelled as List Char,
   Python floats carrying exact decimal data (Julian Dates, orbital element
   thresholds) as rationals, and the real-valued orbital computations
   (trigonometry in the Kepler solver and the state propagation) as real
   numbers.  Calendar arithmetic performed by the external datetime and
   astropy libraries is modelled exactly on the proleptic Gregorian
   calendar (see jdOfDate below). -/

namespace MPP

/-- ASCII model of the whitespace set stripped by Python str.strip(). -/
def isPySpace (c : Char) : Bool :=
  c.toNat == 32 || c.toNat == 9 || c.toNat == 10 ||
    c.toNat == 13 || c.toNat == 11 || c.toNat == 12

/-- Remove trailing whitespace characters (right half of str.strip()). -/
def rstripR : List Char → List Char
  | [] => []
  | c :: t =>
    let t2 := rstripR t
    if t2.isEmpty && isPySpace c then [] else c :: t2

/-- Python str.strip(): leading and trailing whitespace removed. -/
def pyStrip (l : List Char) : List Char := rstripR (l.dropWhile isPySpace)

/-- ASCII decimal digit test. -/
def isDigitC (c : Char) : Bool := 48 ≤ c.toNat && c.toNat ≤ 57

/-- Value of a most-significant-first decimal digit string. -/
def natOfDigits : List Char → ℕ
  | [] => 0
  | c :: t => (c.toNat - 48) * 10 ^ t.length + natOfDigits t

/-- Mantissa of a Python float literal: decimal digits with at most one
    dot and at least one digit. -/
def parseMantissa (l : List Char) : Option ℚ :=
  let ip := l.takeWhile (fun c => c != '.')
  match l.dropWhile (fun c => c != '.') with
  | [] => if ip.all isDigitC && !ip.isEmpty then some ((natOfDigits ip : ℚ)) else none
  | _ :: fp =>
    if ip.all isDigitC && fp.all isDigitC && !(ip.isEmpty && fp.isEmpty) then
      some ((natOfDigits ip : ℚ) + (natOfDigits fp : ℚ) / (10 : ℚ) ^ fp.length)
    else none

/-- Optional sign followed by a nonempty digit string (no surrounding
    whitespace); used for float exponents and as the core of int(). -/
def pyIntCore (l : List Char) : Option ℤ :=
  match l with
  | [] => none
  | c :: r =>
    if c == '+' then
      if r.all isDigitC && !r.isEmpty then some ((natOfDigits r : ℤ)) else none
    else if c == '-' then
      if r.all isDigitC && !r.isEmpty then some (-(natOfDigits r : ℤ)) else none
    else if (c :: r).all isDigitC then some ((natOfDigits (c :: r) : ℤ)) else none

/-- Unsigned part of a Python float literal: mantissa with optional
    e/E exponent. -/
def parsePyFloatCore (l : List Char) : Option ℚ :=
  let m := l.takeWhile (fun c => c != 'e' && c != 'E')
  match l.dropWhile (fun c => c != 'e' && c != 'E') with
  | [] => parseMantissa m
  | _ :: ex =>
    match parseMantissa m, pyIntCore ex with
    | some mv, some ev => some (mv * (10 : ℚ) ^ ev)
    | _, _ => none

/-- Model of Python float(s) on finite decimal literals.  The inf/nan
    words and digit-group underscores accepted by CPython have no rational
    counterpart and are outside the model. -/
def parsePyFloat (l : List Char) : Option ℚ :=
  match l with
  | [] => parsePyFloatCore []
  | c :: r =>
    if c == '+' then parsePyFloatCore r
    else if c == '-' then (parsePyFloatCore r).map (fun v => -v)
    else parsePyFloatCore (c :: r)

/-- Model of Python int(s): strip whitespace, then optional sign and
    decimal digits. -/
def pyInt (l : List Char) : Option ℤ := pyIntCore (pyStrip l)

/-- ASCII model of str.upper() on a single code point. -/
def pyUpperN (n : ℕ) : ℕ := if 97 ≤ n ∧ n ≤ 122 then n - 32 else n

/-- Loop of common.base36_to_int: value = value*36 + digit, raising on a
    character outside 0-9 / A-Z (inputs arrive already uppercased). -/
def base36go : ℕ → List ℕ → Except String ℕ
  | v, [] => Except.ok v
  | v, n :: t =>
    if 48 ≤ n ∧ n ≤ 57 then base36go (36 * v + (n - 48)) t
    else if 65 ≤ n ∧ n ≤ 90 then base36go (36 * v + (n - 55)) t
    else Except.error "Invalid base36 character"

/-- common.base36_to_int: uppercase the string, then fold base-36 digits
    most significant first. -/
def base36_to_int (s : List Char) : Except String ℕ :=
  base36go 0 (s.map (fun c => pyUpperN c.toNat))


/-- Value of one base-36 character after uppercasing. -/
def b36val (c : Char) : ℕ :=
  if pyUpperN c.toNat ≤ 57 then pyUpperN c.toNat - 48 else pyUpperN c.toNat - 55

/-- Case-insensitive base-36 digit test (0-9, A-Z, a-z). -/
def isB36 (c : Char) : Bool :=
  (48 ≤ pyUpperN c.toNat && pyUpperN c.toNat ≤ 57) ||
    (65 ≤ pyUpperN c.toNat && pyUpperN c.toNat ≤ 90)

/-- Proleptic Gregorian leap-year rule (as used by Python datetime). -/
def isLeap (y : ℤ) : Prop :=
  (y % 4 = 0 ∧ y % 100 ≠ 0) ∨ y % 400 = 0

instance (y : ℤ) : Decidable (isLeap y) := by unfold isLeap; exact inferInstance

/-- Days contained in all years before year y (datetime.toordinal
    convention: year numbering starts at 1). -/
def daysBeforeYear (y : ℤ) : ℤ :=
  365 * (y - 1) + (y - 1) / 4 - (y - 1) / 100 + (y - 1) / 400

def monthLengths (y : ℤ) : List ℤ :=
  [31, if isLeap y then 29 else 28, 31, 30, 31, 30, 31, 31, 30, 31, 30, 31]

/-- Days contained in the months of year y strictly before month m. -/
def daysBeforeMonth (y : ℤ) (m : ℕ) : ℤ := ((monthLengths y).take (m - 1)).sum


/-- Number of days in year y. -/
def daysInYear (y : ℤ) : ℤ := if isLeap y then 366 else 365

/-- datetime.toordinal: proleptic Gregorian day count with 0001-01-01 as
    day 1. -/
def toOrdinal (y : ℤ) (m : ℕ) (d : ℤ) : ℤ := daysBeforeYear y + daysBeforeMonth y m + d

/-- Julian Date of the calendar day y-m-d at 00:00 UTC; models the
    composition datetime.isoformat ∘ astropy.time.Time(..., scale=utc).jd
    used by common.utc2jd. -/
def jdOfDate (y : ℤ) (m : ℕ) (d : ℤ) : ℚ := (toOrdinal y m d : ℚ) + 1721424.5

/-- Century encoded by an uppercased code point u: 1800 + 100*(u - ord I). -/
def centuryOf (u : ℕ) : ℤ := 1800 + 100 * ((u : ℤ) - 73)

/-- Model of the two-way unpack epoch_code.split(.): no dot yields the
    whole code with fractional part 0, one dot splits there, and two or
    more dots fail (ValueError: too many values to unpack). -/
def pySplitDot (ec : List Char) : Option (List Char × List Char) :=
  let ip := ec.takeWhile (fun c => c != '.')
  match ec.dropWhile (fun c => c != '.') with
  | [] => some (ec, ['0'])
  | _ :: rest => if rest.contains '.' then none else some (ip, rest)

/-- Body of common.mpcepoch2jd after the initial strip.  The final two
    checks model the ValueError raised by datetime(year, 1, 1) outside
    years 1..9999 and the OverflowError raised when the added timedelta
    leaves the representable datetime range.  The timedelta rounding of
    fractional days to whole microseconds is not modelled (exact rational
    day fractions are kept instead). -/
def mpcepoch2jdStripped (ec : List Char) : Except String ℚ :=
  match parsePyFloat ec with
  | some v => Except.ok v
  | none =>
    match pySplitDot ec with
    | none => Except.error "too many values to unpack"
    | some (ip, fp) =>
      match ip with
      | [] => Except.error "string index out of range"
      | c0 :: _ =>
        let u := pyUpperN c0.toNat
        if 73 ≤ u ∧ u ≤ 90 then
          match pyInt ((ip.drop 1).take 2) with
          | none => Except.error "invalid literal for int"
          | some yy =>
            let year : ℤ := centuryOf u + yy
            match base36_to_int ((ip.drop 3).take 2) with
            | Except.error msg => Except.error msg
            | Except.ok d =>
              match parsePyFloat ('0' :: '.' :: fp) with
              | none => Except.error "could not convert string to float"
              | some fv =>
                let day_of_year : ℚ := (d : ℚ) + fv
                if year < 1 ∨ 9999 < year then Except.error "year is out of range"
                else
                  let jd : ℚ := jdOfDate year 1 1 + (day_of_year - 1)
                  if jd < jdOfDate 1 1 1 ∨ jdOfDate 9999 12 31 + 1 ≤ jd then
                    Except.error "date value out of range"
                  else Except.ok jd
        else Except.error "Unknown century code"

/-- common.mpcepoch2jd: strip surrounding whitespace, return bare numeric
    strings unchanged as a Julian Date, otherwise parse the packed code
    CYYDDD[.fff]. -/
def mpcepoch2jd (epoch_code : List Char) : Except String ℚ :=
  mpcepoch2jdStripped (pyStrip epoch_code)

/- Family classifier of scripts/plot_sssb_xy.py, lines 132-158.  The
   semi-major axis a and eccentricity e are modelled as rationals; the
   decimal threshold literals are exact. -/

/-- Perihelion distance q = a*(1 - e). -/
def q_peri (a e : ℚ) : ℚ := a * (1 - e)

def mask_nea (a e : ℚ) : Prop := q_peri a e < 1.3

def mask_mba (a e : ℚ) : Prop := q_peri a e ≥ 1.3 ∧ a ≥ 1.8 ∧ a ≤ 3.3

def mask_hilda (a e : ℚ) : Prop :=
  q_peri a e ≥ 1.3 ∧ a ≥ 3.7 ∧ a ≤ 4.0 ∧ e ≥ 0.07 ∧ e ≤ 0.3

def mask_trojan (a e : ℚ) : Prop := q_peri a e ≥ 1.3 ∧ a ≥ 5.0 ∧ a ≤ 5.4

def mask_tno (a e : ℚ) : Prop := q_peri a e ≥ 1.3 ∧ a ≥ 30.0

instance (a e : ℚ) : Decidable (mask_nea a e) := by unfold mask_nea; exact inferInstance

instance (a e : ℚ) : Decidable (mask_mba a e) := by unfold mask_mba; exact inferInstance

instance (a e : ℚ) : Decidable (mask_hilda a e) := by unfold mask_hilda; exact inferInstance

instance (a e : ℚ) : Decidable (mask_trojan a e) := by unfold mask_trojan; exact inferInstance

instance (a e : ℚ) : Decidable (mask_tno a e) := by unfold mask_tno; exact inferInstance

/-- A body satisfies one of the five specific-family masks. -/
def anySpecific (a e : ℚ) : Prop :=
  mask_nea a e ∨ mask_mba a e ∨ mask_hilda a e ∨ mask_trojan a e ∨ mask_tno a e

instance (a e : ℚ) : Decidable (anySpecific a e) := by unfold anySpecific; exact inferInstance

inductive SSSBClass
  | nea
  | mba
  | hilda
  | trojan
  | tno
  | other
deriving DecidableEq

/-- Label of one body.  The script fills the colors array with the
    default, then overwrites through the masks in the order NEA, MBA,
    Hilda, Trojan, TNO, so a later mask would win a tie. -/
def classifyBody (a e : ℚ) : SSSBClass :=
  let c := SSSBClass.other
  let c := if mask_nea a e then SSSBClass.nea else c
  let c := if mask_mba a e then SSSBClass.mba else c
  let c := if mask_hilda a e then SSSBClass.hilda else c
  let c := if mask_trojan a e then SSSBClass.trojan else c
  let c := if mask_tno a e then SSSBClass.tno else c
  c

/-- The membership condition named by each label: the five masks, and
    for Other the absence of all five. -/
def labelPred : SSSBClass → ℚ → ℚ → Prop
  | SSSBClass.nea => mask_nea
  | SSSBClass.mba => mask_mba
  | SSSBClass.hilda => mask_hilda
  | SSSBClass.trojan => mask_trojan
  | SSSBClass.tno => mask_tno
  | SSSBClass.other => fun a e => ¬ anySpecific a e

/- Per-label population counts (script lines 151-158); a population is a
   list of (a, e) pairs in catalog order. -/

def N_nea (P : List (ℚ × ℚ)) : ℕ := P.countP (fun b => decide (mask_nea b.1 b.2))

def N_mba (P : List (ℚ × ℚ)) : ℕ := P.countP (fun b => decide (mask_mba b.1 b.2))

def N_hilda (P : List (ℚ × ℚ)) : ℕ := P.countP (fun b => decide (mask_hilda b.1 b.2))

def N_trojan (P : List (ℚ × ℚ)) : ℕ := P.countP (fun b => decide (mask_trojan b.1 b.2))

def N_tno (P : List (ℚ × ℚ)) : ℕ := P.countP (fun b => decide (mask_tno b.1 b.2))

/-- N_others = N_all - (N_nea + N_mba + N_hilda + N_trojan + N_tno). -/
def N_others (P : List (ℚ × ℚ)) : ℕ :=
  P.length - (N_nea P + N_mba P + N_hilda P + N_trojan P + N_tno P)

/- Kepler solver of common.solve_kepler_eq and the orbital state
   propagation of scripts/plot_sssb_xy.py lines 93-125. -/

/-- One Newton-Raphson update of Kepler's equation. -/
noncomputable def kepler_step (M e E : ℝ) : ℝ :=
  E - (E - e * Real.sin E - M) / (1 - e * Real.cos E)

/-- Scalar fixed-iteration Newton solve starting from E = M. -/
noncomputable def solve_kepler_scalar (M e : ℝ) : ℕ → ℝ
  | 0 => M
  | n + 1 => kepler_step M e (solve_kepler_scalar M e n)

/-- Elementwise Newton update over whole arrays (E = E - (...) on numpy
    arrays). -/
noncomputable def kepler_step_vec : List ℝ → List ℝ → List ℝ → List ℝ
  | m :: ms, ec :: es, x :: xs => kepler_step m ec x :: kepler_step_vec ms es xs
  | _, _, _ => []

/-- common.solve_kepler_eq: E = M.copy(), then max_iter whole-array
    Newton updates, no convergence check. -/
noncomputable def solve_kepler_eq (M e : List ℝ) : ℕ → List ℝ
  | 0 => M
  | n + 1 => kepler_step_vec M e (solve_kepler_eq M e n)

/-- The Python default for the max_iter parameter of solve_kepler_eq. -/
def KEPLER_DEFAULT_ITER : ℕ := 10

/-- numpy-style atan2 (principal value in (-pi, pi]); modelled with
    Real.arctan by quadrant. -/
noncomputable def atan2 (y x : ℝ) : ℝ :=
  if 0 < x then Real.arctan (y / x)
  else if x < 0 ∧ 0 ≤ y then Real.arctan (y / x) + Real.pi
  else if x < 0 ∧ y < 0 then Real.arctan (y / x) - Real.pi
  else if x = 0 ∧ 0 < y then Real.pi / 2
  else if x = 0 ∧ y < 0 then -(Real.pi / 2)
  else 0

/-- np.mod(x, 2*pi). -/
noncomputable def fmod2pi (x : ℝ) : ℝ :=
  x - 2 * Real.pi * (⌊x / (2 * Real.pi)⌋ : ℤ)

/-- One catalog body: angles in radians, mean motion in radians/day,
    semi-major axis in AU, epoch still in packed form. -/
structure OrbitalElementSet where
  M : ℝ
  omega : ℝ
  Omega : ℝ
  i : ℝ
  e : ℝ
  a : ℝ
  n : ℝ
  epoch : List Char

/-- Derived state of one body at the target epoch. -/
structure PropagatedState where
  E : ℝ
  nu : ℝ
  r : ℝ
  x : ℝ
  y : ℝ

/-- Per-body slice of the elementwise pipeline of plot_sssb_xy.py lines
    96-125: linear mean-anomaly propagation, ten Newton iterations, true
    anomaly, radius and ecliptic-plane projection. -/
noncomputable def propagateBody (b : OrbitalElementSet) (jd_now epoch_jd : ℝ) :
    PropagatedState :=
  let dt_days := jd_now - epoch_jd
  let M_t := b.M + b.n * dt_days
  let E := solve_kepler_scalar M_t b.e KEPLER_DEFAULT_ITER
  let nu := 2 * atan2 (Real.sqrt (1 + b.e) * Real.sin (E / 2))
      (Real.sqrt (1 - b.e) * Real.cos (E / 2))
  let nu_total := fmod2pi (b.omega + nu)
  let r := b.a * (1 - b.e * Real.cos E)
  { E := E
    nu := nu
    r := r
    x := r * (Real.cos b.Omega * Real.cos nu_total -
        Real.sin b.Omega * Real.sin nu_total * Real.cos b.i)
    y := r * (Real.sin b.Omega * Real.cos nu_total +
        Real.cos b.Omega * Real.sin nu_total * Real.cos b.i) }

/-- The epoch_jd list comprehension of plot_sssb_xy.py line 95: decode
    epochs left to right, the first failure propagating as the result. -/
def decodeEpochs : List (List Char) → Except String (List ℚ)
  | [] => Except.ok []
  | c :: t =>
    match mpcepoch2jd c with
    | Except.error m => Except.error m
    | Except.ok j =>
      match decodeEpochs t with
      | Except.error m => Except.error m
      | Except.ok js => Except.ok (j :: js)

/-- True when decoding produced a value. -/
def exceptIsOk : Except String ℚ → Bool
  | Except.ok _ => true
  | Except.error _ => false

/-- The decoded epoch of a body, defaulting to 0 on a decode failure
    (used only to express results about the success branch). -/
def decodeOrDefault (s : List Char) : ℚ :=
  match mpcepoch2jd s with
  | Except.ok v => v
  | Except.error _ => 0

/-- Batch propagation: decode every epoch, abort on the first decode
    failure, otherwise produce one PropagatedState per body in input
    order. -/
noncomputable def propagate (bodies : List OrbitalElementSet) (jd_now : ℝ) :
    Except String (List PropagatedState) :=
  match decodeEpochs (bodies.map (fun b => b.epoch)) with
  | Except.error msg => Except.error msg
  | Except.ok jds =>
    Except.ok (List.zipWith (fun b jd => propagateBody b jd_now ((jd : ℚ) : ℝ)) bodies jds)

/- ------------------------------------------------------------------
   Theorems: family classifier (claims C1, C2)
   ------------------------------------------------------------------ -/

lemma classify_eq_nea_iff (a e : ℚ) :
    classifyBody a e = SSSBClass.nea ↔ mask_nea a e := by
  unfold classifyBody
  split_ifs with h1 h2 h3 h4 h5 <;>
    simp_all [mask_nea, mask_mba, mask_hilda, mask_trojan, mask_tno, q_peri] <;>
    intros <;> linarith

lemma classify_eq_mba_iff (a e : ℚ) :
    classifyBody a e = SSSBClass.mba ↔ mask_mba a e := by
  unfold classifyBody
  split_ifs with h1 h2 h3 h4 h5 <;>
    simp_all [mask_nea, mask_mba, mask_hilda, mask_trojan, mask_tno, q_peri] <;>
    intros <;> linarith

lemma classify_eq_hilda_iff (a e : ℚ) :
    classifyBody a e = SSSBClass.hilda ↔ mask_hilda a e := by
  unfold classifyBody
  split_ifs with h1 h2 h3 h4 h5 <;>
    simp_all [mask_nea, mask_mba, mask_hilda, mask_trojan, mask_tno, q_peri] <;>
    intros <;> linarith

lemma classify_eq_trojan_iff (a e : ℚ) :
    classifyBody a e = SSSBClass.trojan ↔ mask_trojan a e := by
  unfold classifyBody
  split_ifs with h1 h2 h3 h4 h5 <;>
    simp_all [mask_nea, mask_mba, mask_hilda, mask_trojan, mask_tno, q_peri] <;>
    intros <;> linarith

lemma classify_eq_tno_iff (a e : ℚ) :
    classifyBody a e = SSSBClass.tno ↔ mask_tno a e := by
  unfold classifyBody
  split_ifs with h1 h2 h3 h4 h5 <;>
    simp_all [mask_nea, mask_mba, mask_hilda, mask_trojan, mask_tno, q_peri] <;>
    intros <;> linarith

lemma classify_eq_other_iff (a e : ℚ) :
    classifyBody a e = SSSBClass.other ↔ ¬ anySpecific a e := by
  unfold classifyBody
  split_ifs with h1 h2 h3 h4 h5 <;>
    simp_all [anySpecific, mask_nea, mask_mba, mask_hilda, mask_trojan, mask_tno, q_peri] <;>
    intros <;> linarith


lemma labelPred_iff (c : SSSBClass) (a e : ℚ) :
    labelPred c a e ↔ classifyBody a e = c := by
  cases c
  · exact (classify_eq_nea_iff a e).symm
  · exact (classify_eq_mba_iff a e).symm
  · exact (classify_eq_hilda_iff a e).symm
  · exact (classify_eq_trojan_iff a e).symm
  · exact (classify_eq_tno_iff a e).symm
  · exact (classify_eq_other_iff a e).symm

lemma nea_excl (a e : ℚ) (h : mask_nea a e) :
    ¬ mask_mba a e ∧ ¬ mask_hilda a e ∧ ¬ mask_trojan a e ∧ ¬ mask_tno a e := by
  unfold mask_nea mask_mba mask_hilda mask_trojan mask_tno q_peri at *
  exact ⟨fun k => by linarith [k.1], fun k => by linarith [k.1],
    fun k => by linarith [k.1], fun k => by linarith [k.1]⟩

lemma mba_excl (a e : ℚ) (h : mask_mba a e) :
    ¬ mask_hilda a e ∧ ¬ mask_trojan a e ∧ ¬ mask_tno a e := by
  unfold mask_mba mask_hilda mask_trojan mask_tno q_peri at *
  exact ⟨fun k => by linarith [h.2.2, k.2.1], fun k => by linarith [h.2.2, k.2.1],
    fun k => by linarith [h.2.2, k.2]⟩

lemma hilda_excl (a e : ℚ) (h : mask_hilda a e) :
    ¬ mask_trojan a e ∧ ¬ mask_tno a e := by
  unfold mask_hilda mask_trojan mask_tno q_peri at *
  exact ⟨fun k => by linarith [h.2.2.1, k.2.1], fun k => by linarith [h.2.2.1, k.2]⟩

lemma trojan_excl (a e : ℚ) (h : mask_trojan a e) : ¬ mask_tno a e := by
  unfold mask_trojan mask_tno q_peri at *
  exact fun k => by linarith [h.2.2, k.2]

lemma indicator_five (a e : ℚ) :
    ((if mask_nea a e then 1 else 0) + (if mask_mba a e then 1 else 0) +
      (if mask_hilda a e then 1 else 0) + (if mask_trojan a e then 1 else 0) +
      (if mask_tno a e then 1 else 0) : ℕ) =
      if anySpecific a e then 1 else 0 := by
  by_cases h1 : mask_nea a e
  · obtain ⟨k1, k2, k3, k4⟩ := nea_excl a e h1
    simp [anySpecific, h1, k1, k2, k3, k4]
  · by_cases h2 : mask_mba a e
    · obtain ⟨k1, k2, k3⟩ := mba_excl a e h2
      simp [anySpecific, h1, h2, k1, k2, k3]
    · by_cases h3 : mask_hilda a e
      · obtain ⟨k1, k2⟩ := hilda_excl a e h3
        simp [anySpecific, h1, h2, h3, k1, k2]
      · by_cases h4 : mask_trojan a e
        · have k1 := trojan_excl a e h4
          simp [anySpecific, h1, h2, h3, h4, k1]
        · by_cases h5 : mask_tno a e
          · simp [anySpecific, h1, h2, h3, h4, h5]
          · simp [anySpecific, h1, h2, h3, h4, h5]

lemma five_sum_eq (P : List (ℚ × ℚ)) :
    N_nea P + N_mba P + N_hilda P + N_trojan P + N_tno P =
      P.countP (fun b => decide (anySpecific b.1 b.2)) := by
  induction P with
  | nil => rfl
  | cons b t ih =>
    simp only [N_nea, N_mba, N_hilda, N_trojan, N_tno, List.countP_cons,
      decide_eq_true_eq] at *
    have h := indicator_five b.1 b.2
    omega

lemma countP_split (P : List (ℚ × ℚ)) :
    P.countP (fun b => decide (anySpecific b.1 b.2)) +
      P.countP (fun b => decide (¬ anySpecific b.1 b.2)) = P.length := by
  have h := List.length_eq_countP_add_countP (fun b : ℚ × ℚ => decide (anySpecific b.1 b.2)) P
  have h2 : P.countP (fun b : ℚ × ℚ => ¬ (decide (anySpecific b.1 b.2)) = true) =
      P.countP (fun b => decide (¬ anySpecific b.1 b.2)) := by
    apply List.countP_congr
    intro b _
    simp
  omega


/-- C1: classify derives q = a*(1-e) and applies the threshold table:
    NEA iff q < 1.3 (strict); otherwise MBA iff 1.8 ≤ a ≤ 3.3, Hilda iff
    3.7 ≤ a ≤ 4.0 and 0.07 ≤ e ≤ 0.3, Trojan iff 5.0 ≤ a ≤ 5.4, TNO iff
    a ≥ 30.0, else Other, with all non-NEA bounds inclusive; a body with
    a = 1.3, e = 0 (q = 1.3 exactly) is not NEA, and bodies exactly on
    the bounds fall inside the corresponding class. -/
theorem spec_C1 :
    (∀ a e : ℚ,
      (classifyBody a e = SSSBClass.nea ↔ q_peri a e < 1.3) ∧
      (classifyBody a e = SSSBClass.mba ↔
        (q_peri a e ≥ 1.3 ∧ 1.8 ≤ a ∧ a ≤ 3.3)) ∧
      (classifyBody a e = SSSBClass.hilda ↔
        (q_peri a e ≥ 1.3 ∧ 3.7 ≤ a ∧ a ≤ 4.0 ∧ 0.07 ≤ e ∧ e ≤ 0.3)) ∧
      (classifyBody a e = SSSBClass.trojan ↔
        (q_peri a e ≥ 1.3 ∧ 5.0 ≤ a ∧ a ≤ 5.4)) ∧
      (classifyBody a e = SSSBClass.tno ↔ (q_peri a e ≥ 1.3 ∧ 30.0 ≤ a)) ∧
      (classifyBody a e = SSSBClass.other ↔ ¬ anySpecific a e)) ∧
    classifyBody 1.3 0 ≠ SSSBClass.nea ∧
    classifyBody 1.3 0 = SSSBClass.other ∧
    classifyBody 1.8 0 = SSSBClass.mba ∧
    classifyBody 3.3 0 = SSSBClass.mba ∧
    classifyBody 3.7 0.07 = SSSBClass.hilda ∧
    classifyBody 4.0 0.3 = SSSBClass.hilda ∧
    classifyBody 5.0 0 = SSSBClass.trojan ∧
    classifyBody 5.4 0 = SSSBClass.trojan ∧
    classifyBody 30.0 0 = SSSBClass.tno := by
  refine ⟨fun a e => ⟨classify_eq_nea_iff a e, ?_, ?_, ?_, ?_, classify_eq_other_iff a e⟩,
    ?_, ?_, ?_, ?_, ?_, ?_, ?_, ?_, ?_⟩
  · rw [classify_eq_mba_iff]; unfold mask_mba; tauto
  · rw [classify_eq_hilda_iff]; unfold mask_hilda; tauto
  · rw [classify_eq_trojan_iff]; unfold mask_trojan; tauto
  · rw [classify_eq_tno_iff]; unfold mask_tno; tauto
  · rw [Ne, classify_eq_nea_iff]; norm_num [mask_nea, q_peri]
  · rw [classify_eq_other_iff]
    norm_num [anySpecific, mask_nea, mask_mba, mask_hilda, mask_trojan, mask_tno, q_peri]
  · rw [classify_eq_mba_iff]; norm_num [mask_mba, q_peri]
  · rw [classify_eq_mba_iff]; norm_num [mask_mba, q_peri]
  · rw [classify_eq_hilda_iff]; norm_num [mask_hilda, q_peri]
  · rw [classify_eq_hilda_iff]; norm_num [mask_hilda, q_peri]
  · rw [classify_eq_trojan_iff]; norm_num [mask_trojan, q_peri]
  · rw [classify_eq_trojan_iff]; norm_num [mask_trojan, q_peri]
  · rw [classify_eq_tno_iff]; norm_num [mask_tno, q_peri]

/-- C2: classification is a total, mutually exclusive partition: each
    body has exactly one label, the six per-label counts sum to the
    population size, and the residual Other count (population size minus
    the five specific counts) equals the number of bodies in none of the
    five specific classes by direct re-evaluation. -/
theorem spec_C2 (P : List (ℚ × ℚ)) :
    (∀ b ∈ P, ∃! c : SSSBClass, labelPred c b.1 b.2) ∧
    N_nea P + N_mba P + N_hilda P + N_trojan P + N_tno P + N_others P = P.length ∧
    N_others P = P.countP (fun b => decide (¬ anySpecific b.1 b.2)) := by
  have h5 := five_sum_eq P
  have hsplit := countP_split P
  have hle : P.countP (fun b => decide (anySpecific b.1 b.2)) ≤ P.length :=
    List.countP_le_length _
  refine ⟨?_, ?_, ?_⟩
  · intro b _
    refine ⟨classifyBody b.1 b.2, (labelPred_iff _ _ _).mpr rfl, ?_⟩
    intro y hy
    exact ((labelPred_iff y b.1 b.2).mp hy).symm
  · unfold N_others; omega
  · unfold N_others; omega

/-- Witness for C2 at a concrete one-body population. -/
theorem spec_C2_witness :
    ((2 : ℚ), (0 : ℚ)) ∈ [((2 : ℚ), (0 : ℚ))] ∧
      ∃! c : SSSBClass, labelPred c 2 0 :=
  ⟨List.mem_singleton.mpr rfl,
    (spec_C2 [((2 : ℚ), (0 : ℚ))]).1 ((2 : ℚ), (0 : ℚ)) (List.mem_singleton.mpr rfl)⟩

/- ------------------------------------------------------------------
   Theorems: Kepler solver and propagation (claims C6, C7, C8, C9)
   ------------------------------------------------------------------ -/

lemma zipWith_left_of_length {M e : List ℝ} (h : M.length = e.length) :
    List.zipWith (fun m _ => m) M e = M := by
  induction M generalizing e with
  | nil => simp
  | cons m ms ih =>
    cases e with
    | nil => simp at h
    | cons ec es =>
      simp only [List.zipWith_cons_cons]
      exact congrArg (List.cons m) (ih (by simpa using h))

lemma kepler_step_vec_zipWith (g : ℝ → ℝ → ℝ) (M e : List ℝ) :
    kepler_step_vec M e (List.zipWith g M e) =
      List.zipWith (fun m ec => kepler_step m ec (g m ec)) M e := by
  induction M generalizing e with
  | nil => cases e <;> rfl
  | cons m ms ih =>
    cases e with
    | nil => rfl
    | cons ec es => simp [kepler_step_vec, ih]

/-- C8: solve performs exactly the fixed number of Newton-Raphson updates
    E ← E - (E - e·sin E - M)/(1 - e·cos E) starting from E₀ = M,
    elementwise over the input arrays, with no convergence check and no
    early exit; the iteration count defaults to 10. -/
theorem spec_C8 (M e : List ℝ) (h : M.length = e.length) :
    (∀ n : ℕ, solve_kepler_eq M e n =
      List.zipWith (fun m ec => (fun E => kepler_step m ec E)^[n] m) M e) ∧
    solve_kepler_eq M e 0 = M ∧
    KEPLER_DEFAULT_ITER = 10 := by
  have main : ∀ n : ℕ, solve_kepler_eq M e n =
      List.zipWith (fun m ec => (fun E => kepler_step m ec E)^[n] m) M e := by
    intro n
    induction n with
    | zero =>
      simp only [solve_kepler_eq, Function.iterate_zero]
      exact (zipWith_left_of_length h).symm
    | succ n ih =>
      show kepler_step_vec M e (solve_kepler_eq M e n) = _
      rw [ih, kepler_step_vec_zipWith]
      have hfun : (fun m ec => kepler_step m ec ((fun E => kepler_step m ec E)^[n] m)) =
          fun (m ec : ℝ) => (fun E => kepler_step m ec E)^[n + 1] m := by
        funext m ec
        exact (Function.iterate_succ_apply' (fun E => kepler_step m ec E) n m).symm
      rw [hfun]
  exact ⟨main, rfl, rfl⟩

/-- Witness for C8 on concrete one-element arrays. -/
theorem spec_C8_witness : solve_kepler_eq [(0 : ℝ)] [(0 : ℝ)] 0 = [(0 : ℝ)] :=
  (spec_C8 [(0 : ℝ)] [(0 : ℝ)] rfl).2.1

/-- C9: for every eccentricity 0 ≤ e < 1, solving with mean anomaly
    M = 0 returns eccentric anomaly 0 exactly: 0 is a fixed point of the
    Newton update, so every iteration maps 0 to 0. -/
theorem spec_C9 (e : ℝ) (h0 : 0 ≤ e) (h1 : e < 1) :
    (∀ it : ℕ, solve_kepler_scalar 0 e it = 0) ∧
    (∀ it : ℕ, solve_kepler_eq [0] [e] it = [0]) := by
  have step0 : kepler_step 0 e 0 = 0 := by
    unfold kepler_step
    simp
  have hs : ∀ it : ℕ, solve_kepler_scalar 0 e it = 0 := by
    intro it
    induction it with
    | zero => rfl
    | succ n ih =>
      show kepler_step 0 e (solve_kepler_scalar 0 e n) = 0
      rw [ih, step0]
  refine ⟨hs, ?_⟩
  intro it
  induction it with
  | zero => rfl
  | succ n ih =>
    show kepler_step_vec [0] [e] (solve_kepler_eq [0] [e] n) = [0]
    rw [ih]
    show [kepler_step 0 e 0] = [0]
    rw [step0]

/-- Witness for C9 at e = 1/2 with the default ten iterations. -/
theorem spec_C9_witness :
    (0 : ℝ) ≤ 1 / 2 ∧ (1 / 2 : ℝ) < 1 ∧ solve_kepler_scalar 0 (1 / 2) 10 = 0 :=
  ⟨by norm_num, by norm_num,
    (spec_C9 (1 / 2) (by norm_num) (by norm_num)).1 10⟩

/-- C7: the propagator computes the mean anomaly linearly as
    M_t = M + n·Δt with Δt = targetEpoch - elementEpoch in days and hands
    it to the Kepler solver unreduced; no modulo 2π is applied, and the
    solver accepts the unwrapped value (shifting M by a whole number of
    turns shifts the solver output by the same amount). -/
theorem spec_C7 :
    (∀ (b : OrbitalElementSet) (jd_now epoch_jd : ℝ),
      (propagateBody b jd_now epoch_jd).E =
        solve_kepler_scalar (b.M + b.n * (jd_now - epoch_jd)) b.e 10) ∧
    (∀ (M e : ℝ) (k : ℤ) (it : ℕ),
      solve_kepler_scalar (M + 2 * Real.pi * k) e it =
        solve_kepler_scalar M e it + 2 * Real.pi * k) := by
  constructor
  · intro b jd_now epoch_jd
    rfl
  · intro M e k it
    induction it with
    | zero => rfl
    | succ n ih =>
      show kepler_step (M + 2 * Real.pi * k) e (solve_kepler_scalar (M + 2 * Real.pi * k) e n) = _
      rw [ih]
      set S := solve_kepler_scalar M e n with hS
      have h2 : ∀ x : ℝ, x + 2 * Real.pi * k = x + k * (2 * Real.pi) := by
        intro x; ring
      have hsin : Real.sin (S + 2 * Real.pi * k) = Real.sin S := by
        rw [h2]; exact Real.sin_add_int_mul_two_pi S k
      have hcos : Real.cos (S + 2 * Real.pi * k) = Real.cos S := by
        rw [h2]; exact Real.cos_add_int_mul_two_pi S k
      show kepler_step (M + 2 * Real.pi * k) e (S + 2 * Real.pi * k) =
        kepler_step M e S + 2 * Real.pi * k
      unfold kepler_step
      rw [hsin, hcos]
      ring


lemma decodeEpochs_error {l : List (List Char)}
    (h : ∃ s ∈ l, exceptIsOk (mpcepoch2jd s) = false) :
    ∃ m, decodeEpochs l = Except.error m := by
  induction l with
  | nil => simp at h
  | cons c t ih =>
    cases hc : mpcepoch2jd c with
    | error m => exact ⟨m, by simp [decodeEpochs, hc]⟩
    | ok j =>
      obtain ⟨s, hs, hbad⟩ := h
      rcases List.mem_cons.mp hs with rfl | hmem
      · rw [hc] at hbad
        simp [exceptIsOk] at hbad
      · obtain ⟨m, hm⟩ := ih ⟨s, hmem, hbad⟩
        exact ⟨m, by simp [decodeEpochs, hc, hm]⟩

lemma decodeEpochs_ok {l : List (List Char)}
    (h : ∀ s ∈ l, exceptIsOk (mpcepoch2jd s) = true) :
    decodeEpochs l = Except.ok (l.map decodeOrDefault) := by
  induction l with
  | nil => rfl
  | cons c t ih =>
    have hc := h c (List.mem_cons_self c t)
    cases hcc : mpcepoch2jd c with
    | error m => rw [hcc] at hc; simp [exceptIsOk] at hc
    | ok j =>
      have ht := ih (fun s hs => h s (List.mem_cons_of_mem c hs))
      simp [decodeEpochs, hcc, ht, decodeOrDefault]

/-- C6: propagate has no error path other than propagating epoch-decoder
    failures: one malformed epoch code aborts the whole batch with no
    partial results, and when every epoch code decodes, propagate produces
    exactly one PropagatedState per body, aligned with input order. -/
theorem spec_C6 (bodies : List OrbitalElementSet) (jd_now : ℝ) :
    ((∃ b ∈ bodies, exceptIsOk (mpcepoch2jd b.epoch) = false) →
      ∃ msg, propagate bodies jd_now = Except.error msg) ∧
    ((∀ b ∈ bodies, exceptIsOk (mpcepoch2jd b.epoch) = true) →
      ∃ out, propagate bodies jd_now = Except.ok out ∧
        out.length = bodies.length ∧
        ∀ (k : ℕ) (hk : k < bodies.length) (hk2 : k < out.length),
          out.get ⟨k, hk2⟩ =
            propagateBody (bodies.get ⟨k, hk⟩) jd_now
              ((decodeOrDefault (bodies.get ⟨k, hk⟩).epoch : ℚ) : ℝ)) := by
  constructor
  · intro h
    obtain ⟨b, hb, hbad⟩ := h
    obtain ⟨m, hm⟩ := decodeEpochs_error
      (l := bodies.map (fun b => b.epoch))
      ⟨b.epoch, List.mem_map_of_mem _ hb, hbad⟩
    exact ⟨m, by simp [propagate, hm]⟩
  · intro h
    have hok : ∀ s ∈ bodies.map (fun b => b.epoch), exceptIsOk (mpcepoch2jd s) = true := by
      intro s hs
      obtain ⟨b, hb, rfl⟩ := List.mem_map.mp hs
      exact h b hb
    have hdec := decodeEpochs_ok hok
    refine ⟨List.zipWith (fun b jd => propagateBody b jd_now ((jd : ℚ) : ℝ)) bodies
      ((bodies.map (fun b => b.epoch)).map decodeOrDefault), ?_, ?_, ?_⟩
    · simp [propagate, hdec]
    · simp
    · intro k hk hk2
      simp [List.get_eq_getElem, List.getElem_zipWith, List.getElem_map]

/-- Witness for C6: a single body with an undecodable epoch code aborts
    the batch. -/
theorem spec_C6_witness :
    ∃ msg, propagate [⟨0, 0, 0, 0, 0, 0, 0, ['A', 'A']⟩] 0 = Except.error msg :=
  (spec_C6 [⟨0, 0, 0, 0, 0, 0, 0, ['A', 'A']⟩] 0).1
    ⟨⟨0, 0, 0, 0, 0, 0, 0, ['A', 'A']⟩, List.mem_singleton.mpr rfl, by decide⟩


/- ------------------------------------------------------------------
   Theorems: epoch decoder (claims C3, C4, C5, C10)
   ------------------------------------------------------------------ -/

/- Character-class helper lemmas. -/

lemma char_ne_of_toNat_ne {c d : Char} (h : c.toNat ≠ d.toNat) : (c != d) = true := by
  simp only [bne_iff_ne, ne_eq]
  intro he
  exact h (he ▸ rfl)

lemma char_beq_false_of_toNat_ne {c d : Char} (h : c.toNat ≠ d.toNat) : (c == d) = false := by
  have := char_ne_of_toNat_ne h
  simpa [bne] using this

lemma isDigitC_iff {c : Char} : isDigitC c = true ↔ 48 ≤ c.toNat ∧ c.toNat ≤ 57 := by
  simp [isDigitC]

lemma isDigitC_false_iff {c : Char} : isDigitC c = false ↔ ¬(48 ≤ c.toNat ∧ c.toNat ≤ 57) := by
  rw [← Bool.not_eq_true, isDigitC_iff]

/- takeWhile / dropWhile over fully satisfying lists. -/

lemma takeWhile_eq_self_of_all {p : Char → Bool} {l : List Char}
    (h : ∀ x ∈ l, p x = true) : l.takeWhile p = l := by
  induction l with
  | nil => rfl
  | cons c t ih =>
    rw [List.takeWhile_cons_of_pos (h c (List.mem_cons_self c t))]
    exact congrArg (List.cons c) (ih (fun x hx => h x (List.mem_cons_of_mem c hx)))

lemma dropWhile_eq_nil_of_all {p : Char → Bool} {l : List Char}
    (h : ∀ x ∈ l, p x = true) : l.dropWhile p = [] := by
  induction l with
  | nil => rfl
  | cons c t ih =>
    rw [List.dropWhile_cons_of_pos (h c (List.mem_cons_self c t))]
    exact ih (fun x hx => h x (List.mem_cons_of_mem c hx))

lemma dropWhile_head_false {p : Char → Bool} {l t : List Char} {c : Char}
    (h : l.dropWhile p = c :: t) : p c = false := by
  induction l with
  | nil => simp at h
  | cons a s ih =>
    by_cases ha : p a = true
    · rw [List.dropWhile_cons_of_pos ha] at h
      exact ih h
    · rw [List.dropWhile_cons_of_neg ha] at h
      cases h
      exact Bool.not_eq_true _ ▸ (by simpa using ha)

/- pyStrip facts. -/

lemma rstripR_cons (c : Char) (t : List Char) :
    rstripR (c :: t) =
      if (rstripR t).isEmpty && isPySpace c then [] else c :: rstripR t := rfl

lemma rstripR_eq_self {l : List Char} (h : ∀ x ∈ l, isPySpace x = false) :
    rstripR l = l := by
  induction l with
  | nil => rfl
  | cons c t ih =>
    have ht := ih (fun x hx => h x (List.mem_cons_of_mem c hx))
    rw [rstripR_cons, ht, if_neg (by simp [h c (List.mem_cons_self c t)])]

lemma pyStrip_eq_self {l : List Char} (h : ∀ x ∈ l, isPySpace x = false) :
    pyStrip l = l := by
  unfold pyStrip
  rw [show l.dropWhile isPySpace = l by
    cases l with
    | nil => rfl
    | cons c t => exact List.dropWhile_cons_of_neg (by simp [h c (List.mem_cons_self c t)])]
  exact rstripR_eq_self h

lemma rstripR_idem (l : List Char) : rstripR (rstripR l) = rstripR l := by
  induction l with
  | nil => rfl
  | cons c t ih =>
    by_cases hc : ((rstripR t).isEmpty && isPySpace c) = true
    · rw [rstripR_cons, if_pos hc]
      rfl
    · rw [rstripR_cons, if_neg hc, rstripR_cons, ih, if_neg hc]

lemma rstripR_head {l t : List Char} {c : Char} (h : rstripR l = c :: t) :
    ∃ t0, l = c :: t0 := by
  cases l with
  | nil => simp [rstripR] at h
  | cons a s =>
    rw [rstripR_cons] at h
    by_cases ha : ((rstripR s).isEmpty && isPySpace a) = true
    · rw [if_pos ha] at h
      cases h
    · rw [if_neg ha] at h
      cases h
      exact ⟨s, rfl⟩

lemma pyStrip_idem (l : List Char) : pyStrip (pyStrip l) = pyStrip l := by
  unfold pyStrip
  set A := l.dropWhile isPySpace with hA
  have hdrop : (rstripR A).dropWhile isPySpace = rstripR A := by
    cases hr : rstripR A with
    | nil => rfl
    | cons c t =>
      obtain ⟨t0, ht0⟩ := rstripR_head hr
      have : isPySpace c = false := dropWhile_head_false (ht0 ▸ hA.symm)
      exact List.dropWhile_cons_of_neg (by simp [this])
  rw [hdrop, rstripR_idem]

lemma mpcepoch2jd_strip_invariant (code : List Char) :
    mpcepoch2jd (pyStrip code) = mpcepoch2jd code := by
  unfold mpcepoch2jd
  rw [pyStrip_idem]


/- Failure of the float parser on non-numeric heads. -/

lemma parseMantissa_head_none {c : Char} (t : List Char)
    (hd : isDigitC c = false) (hdot : c.toNat ≠ 46) :
    parseMantissa (c :: t) = none := by
  have h1 : (c != '.') = true := char_ne_of_toNat_ne (by simpa using hdot)
  have e1 : List.takeWhile (fun x => x != '.') (c :: t) =
      c :: List.takeWhile (fun x => x != '.') t := List.takeWhile_cons_of_pos h1
  have e2 : List.dropWhile (fun x => x != '.') (c :: t) =
      List.dropWhile (fun x => x != '.') t := List.dropWhile_cons_of_pos h1
  simp only [parseMantissa, e1, e2]
  cases List.dropWhile (fun x => x != '.') t with
  | nil => simp [hd]
  | cons x fp => simp [hd]

lemma parsePyFloatCore_head_none {c : Char} (t : List Char)
    (hd : isDigitC c = false) (hdot : c.toNat ≠ 46)
    (he : c.toNat ≠ 101) (hE : c.toNat ≠ 69) :
    parsePyFloatCore (c :: t) = none := by
  have h1 : (c != 'e' && c != 'E') = true := by
    rw [char_ne_of_toNat_ne (by simpa using he), char_ne_of_toNat_ne (by simpa using hE)]
    rfl
  have e1 : List.takeWhile (fun x => x != 'e' && x != 'E') (c :: t) =
      c :: List.takeWhile (fun x => x != 'e' && x != 'E') t :=
    List.takeWhile_cons_of_pos h1
  have e2 : List.dropWhile (fun x => x != 'e' && x != 'E') (c :: t) =
      List.dropWhile (fun x => x != 'e' && x != 'E') t :=
    List.dropWhile_cons_of_pos h1
  simp only [parsePyFloatCore, e1, e2]
  cases List.dropWhile (fun x => x != 'e' && x != 'E') t with
  | nil => exact parseMantissa_head_none _ hd hdot
  | cons x ex => rw [parseMantissa_head_none _ hd hdot]

lemma parsePyFloat_head_none {c : Char} (t : List Char)
    (hd : isDigitC c = false) (hdot : c.toNat ≠ 46)
    (he : c.toNat ≠ 101) (hE : c.toNat ≠ 69)
    (hplus : c.toNat ≠ 43) (hminus : c.toNat ≠ 45) :
    parsePyFloat (c :: t) = none := by
  have e1 : (c == '+') = false := char_beq_false_of_toNat_ne (by simpa using hplus)
  have e2 : (c == '-') = false := char_beq_false_of_toNat_ne (by simpa using hminus)
  simp only [parsePyFloat, e1, e2, Bool.false_eq_true, if_false]
  exact parsePyFloatCore_head_none _ hd hdot he hE

/- Success of the float parser on 0.<digits>. -/

lemma digit_not_dot {c : Char} (h : isDigitC c = true) : (c != '.') = true := by
  rw [isDigitC_iff] at h
  exact char_ne_of_toNat_ne (by simp; omega)

lemma digit_not_eE {c : Char} (h : isDigitC c = true) : (c != 'e' && c != 'E') = true := by
  rw [isDigitC_iff] at h
  rw [char_ne_of_toNat_ne (show c.toNat ≠ 101 by omega)]
  rw [char_ne_of_toNat_ne (show c.toNat ≠ 69 by omega)]
  rfl

lemma parsePyFloat_zero_dot (frac : List Char) (h : frac.all isDigitC = true) :
    parsePyFloat ('0' :: '.' :: frac) =
      some ((natOfDigits frac : ℚ) / (10 : ℚ) ^ frac.length) := by
  have hall : ∀ x ∈ frac, isDigitC x = true := by
    intro x hx
    exact List.all_eq_true.mp h x hx
  have htw : frac.takeWhile (fun c => c != 'e' && c != 'E') = frac :=
    takeWhile_eq_self_of_all (fun x hx => digit_not_eE (hall x hx))
  have hdw : frac.dropWhile (fun c => c != 'e' && c != 'E') = [] :=
    dropWhile_eq_nil_of_all (fun x hx => digit_not_eE (hall x hx))
  have htw2 : frac.takeWhile (fun c => c != '.') = frac :=
    takeWhile_eq_self_of_all (fun x hx => digit_not_dot (hall x hx))
  have hdw2 : frac.dropWhile (fun c => c != '.') = [] :=
    dropWhile_eq_nil_of_all (fun x hx => digit_not_dot (hall x hx))
  have t1 : List.takeWhile (fun x => x != 'e' && x != 'E') ('0' :: '.' :: frac) =
      '0' :: '.' :: frac := by
    simp [List.takeWhile_cons, htw]
  have t2 : List.dropWhile (fun x => x != 'e' && x != 'E') ('0' :: '.' :: frac) = [] := by
    simp [List.dropWhile_cons, hdw]
  have t3 : List.takeWhile (fun x => x != '.') ('0' :: '.' :: frac) = ['0'] := by
    simp [List.takeWhile_cons]
  have t4 : List.dropWhile (fun x => x != '.') ('0' :: '.' :: frac) = '.' :: frac := by
    simp [List.dropWhile_cons]
  have hz : parsePyFloat ('0' :: '.' :: frac) = parsePyFloatCore ('0' :: '.' :: frac) := by
    simp [parsePyFloat]
  rw [hz]
  simp only [parsePyFloatCore, t1, t2, parseMantissa, t3, t4]
  simp [h, natOfDigits, isDigitC]


/- Integer parsing on digit strings. -/

lemma digit_not_space {c : Char} (h : isDigitC c = true) : isPySpace c = false := by
  rw [isDigitC_iff] at h
  simp only [isPySpace, Bool.or_eq_false_iff, beq_eq_false_iff_ne, ne_eq]
  omega

lemma pyIntCore_digits {l : List Char} (hne : l ≠ []) (h : l.all isDigitC = true) :
    pyIntCore l = some ((natOfDigits l : ℤ)) := by
  cases l with
  | nil => exact absurd rfl hne
  | cons c r =>
    have h2 := h
    rw [List.all_cons, Bool.and_eq_true] at h2
    obtain ⟨hc, hr⟩ := h2
    have hb := isDigitC_iff.mp hc
    have e1 : (c == '+') = false := char_beq_false_of_toNat_ne
      (by rw [show ('+' : Char).toNat = 43 from rfl]; omega)
    have e2 : (c == '-') = false := char_beq_false_of_toNat_ne
      (by rw [show ('-' : Char).toNat = 45 from rfl]; omega)
    simp only [pyIntCore, e1, e2, Bool.false_eq_true, if_false, h, if_true]

lemma pyInt_digits {l : List Char} (hne : l ≠ []) (h : l.all isDigitC = true) :
    pyInt l = some ((natOfDigits l : ℤ)) := by
  unfold pyInt
  rw [pyStrip_eq_self (fun x hx => digit_not_space (List.all_eq_true.mp h x hx))]
  exact pyIntCore_digits hne h

lemma natOfDigits_two (y1 y0 : Char) :
    natOfDigits [y1, y0] = 10 * (y1.toNat - 48) + (y0.toNat - 48) := by
  simp [natOfDigits]
  ring

lemma natOfDigits_lt {l : List Char} (h : l.all isDigitC = true) :
    natOfDigits l < 10 ^ l.length := by
  induction l with
  | nil => simp [natOfDigits]
  | cons c t ih =>
    rw [List.all_cons, Bool.and_eq_true] at h
    obtain ⟨hc, ht⟩ := h
    have hd : c.toNat - 48 ≤ 9 := by
      have := isDigitC_iff.mp hc
      omega
    have hv := ih ht
    calc natOfDigits (c :: t) = (c.toNat - 48) * 10 ^ t.length + natOfDigits t := rfl
    _ < (c.toNat - 48) * 10 ^ t.length + 10 ^ t.length := by omega
    _ = (c.toNat - 48 + 1) * 10 ^ t.length := by ring
    _ ≤ 10 * 10 ^ t.length := Nat.mul_le_mul_right _ (by omega)
    _ = 10 ^ (c :: t).length := by
        rw [List.length_cons, pow_succ]
        ring

/- base36 lemmas. -/

lemma base36go_two {u1 u0 : ℕ} (v : ℕ)
    (h1 : (48 ≤ u1 ∧ u1 ≤ 57) ∨ (65 ≤ u1 ∧ u1 ≤ 90))
    (h0 : (48 ≤ u0 ∧ u0 ≤ 57) ∨ (65 ≤ u0 ∧ u0 ≤ 90)) :
    base36go v [u1, u0] =
      Except.ok (36 * (36 * v + (if u1 ≤ 57 then u1 - 48 else u1 - 55)) +
        (if u0 ≤ 57 then u0 - 48 else u0 - 55)) := by
  simp only [base36go]
  split_ifs <;> simp_all <;> omega

lemma isB36_iff {c : Char} :
    isB36 c = true ↔
      (48 ≤ pyUpperN c.toNat ∧ pyUpperN c.toNat ≤ 57) ∨
        (65 ≤ pyUpperN c.toNat ∧ pyUpperN c.toNat ≤ 90) := by
  simp [isB36]

lemma base36_two {d1 d0 : Char} (h1 : isB36 d1 = true) (h0 : isB36 d0 = true) :
    base36_to_int [d1, d0] = Except.ok (36 * b36val d1 + b36val d0) := by
  unfold base36_to_int
  simp only [List.map_cons, List.map_nil]
  rw [base36go_two 0 (isB36_iff.mp h1) (isB36_iff.mp h0)]
  unfold b36val
  norm_num

lemma base36go_err {l : List ℕ} (v : ℕ)
    (h : ∃ n ∈ l, ¬((48 ≤ n ∧ n ≤ 57) ∨ (65 ≤ n ∧ n ≤ 90))) :
    ∃ m, base36go v l = Except.error m := by
  induction l generalizing v with
  | nil => simp at h
  | cons n t ih =>
    obtain ⟨x, hx, hbad⟩ := h
    rcases List.mem_cons.mp hx with rfl | hmem
    · refine ⟨"Invalid base36 character", ?_⟩
      simp only [base36go]
      rw [if_neg (by omega), if_neg (by omega)]
    · by_cases hn : (48 ≤ n ∧ n ≤ 57) ∨ (65 ≤ n ∧ n ≤ 90)
      · obtain ⟨m, hm⟩ := ih (v := if n ≤ 57 then 36 * v + (n - 48) else 36 * v + (n - 55))
          ⟨x, hmem, hbad⟩
        refine ⟨m, ?_⟩
        simp only [base36go]
        rcases hn with ⟨a, b⟩ | ⟨a, b⟩
        · rw [if_pos (by omega)]
          rw [if_pos (by omega)] at hm
          exact hm
        · rw [if_neg (by omega), if_pos (by omega)]
          rw [if_neg (by omega)] at hm
          exact hm
      · refine ⟨"Invalid base36 character", ?_⟩
        simp only [base36go]
        rw [if_neg (by omega), if_neg (by omega)]

lemma base36_err {s : List Char} (h : ∃ c ∈ s, isB36 c = false) :
    ∃ m, base36_to_int s = Except.error m := by
  unfold base36_to_int
  obtain ⟨c, hc, hbad⟩ := h
  apply base36go_err
  refine ⟨pyUpperN c.toNat, List.mem_map_of_mem _ hc, ?_⟩
  intro hgood
  rw [← Bool.not_eq_true, isB36_iff] at hbad
  exact hbad hgood


lemma isB36_toNat_range {c : Char} (h : isB36 c = true) :
    (48 ≤ c.toNat ∧ c.toNat ≤ 57) ∨ (65 ≤ c.toNat ∧ c.toNat ≤ 90) ∨
      (97 ≤ c.toNat ∧ c.toNat ≤ 122) := by
  have := isB36_iff.mp h
  unfold pyUpperN at this
  by_cases hl : 97 ≤ c.toNat ∧ c.toNat ≤ 122
  · exact Or.inr (Or.inr hl)
  · rw [if_neg hl] at this
    omega

lemma b36val_le {c : Char} (h : isB36 c = true) : b36val c ≤ 35 := by
  have := isB36_iff.mp h
  unfold b36val
  split_ifs <;> omega

lemma notspace_of_ge46 {c : Char} (h : 46 ≤ c.toNat) : isPySpace c = false := by
  simp only [isPySpace, Bool.or_eq_false_iff, beq_eq_false_iff_ne, ne_eq]
  omega

lemma contains_dot_false {l : List Char} (h : l.all isDigitC = true) :
    l.contains '.' = false := by
  induction l with
  | nil => rfl
  | cons c t ih =>
    rw [List.all_cons, Bool.and_eq_true] at h
    obtain ⟨hc, ht⟩ := h
    have hb := isDigitC_iff.mp hc
    rw [List.contains_cons]
    rw [ih ht, char_beq_false_of_toNat_ne
      (by rw [show ('.' : Char).toNat = 46 from rfl]; omega)]
    rfl

lemma pySplitDot_nodot {ec : List Char} (h : ∀ x ∈ ec, (x != '.') = true) :
    pySplitDot ec = some (ec, ['0']) := by
  simp only [pySplitDot, dropWhile_eq_nil_of_all h]

lemma split_dot_aux (pre rest : List Char) (hpre : ∀ x ∈ pre, (x != '.') = true) :
    (pre ++ '.' :: rest).takeWhile (fun x => x != '.') = pre ∧
      (pre ++ '.' :: rest).dropWhile (fun x => x != '.') = '.' :: rest := by
  induction pre with
  | nil =>
    constructor
    · exact List.takeWhile_cons_of_neg (by decide)
    · exact List.dropWhile_cons_of_neg (by decide)
  | cons c t ih =>
    obtain ⟨ht, hd⟩ := ih (fun x hx => hpre x (List.mem_cons_of_mem c hx))
    constructor
    · rw [List.cons_append]
      rw [show List.takeWhile (fun x => x != '.') (c :: (t ++ '.' :: rest)) =
          c :: List.takeWhile (fun x => x != '.') (t ++ '.' :: rest) from
        List.takeWhile_cons_of_pos (hpre c (List.mem_cons_self c t)), ht]
    · rw [List.cons_append]
      rw [show List.dropWhile (fun x => x != '.') (c :: (t ++ '.' :: rest)) =
          List.dropWhile (fun x => x != '.') (t ++ '.' :: rest) from
        List.dropWhile_cons_of_pos (hpre c (List.mem_cons_self c t)), hd]

lemma pySplitDot_onedot {pre rest : List Char}
    (hpre : ∀ x ∈ pre, (x != '.') = true) (hrest : rest.contains '.' = false) :
    pySplitDot (pre ++ '.' :: rest) = some (pre, rest) := by
  obtain ⟨ht, hd⟩ := split_dot_aux pre rest hpre
  simp only [pySplitDot, ht, hd, hrest, Bool.false_eq_true, if_false]

/-- Core success path of the packed decode, once strip, float bypass and
    dot split are settled. -/
lemma decode_packed_core {c y1 y0 d1 d0 : Char} {code fp : List Char}
    (hstrip : pyStrip code = code)
    (hfloat : parsePyFloat code = none)
    (hsplit : pySplitDot code = some ([c, y1, y0, d1, d0], fp))
    (hc1 : 73 ≤ c.toNat) (hc2 : c.toNat ≤ 90)
    (hy1 : isDigitC y1 = true) (hy0 : isDigitC y0 = true)
    (hd1 : isB36 d1 = true) (hd0 : isB36 d0 = true)
    (hfp : fp.all isDigitC = true) :
    mpcepoch2jd code =
      Except.ok (jdOfDate (centuryOf c.toNat + (natOfDigits [y1, y0] : ℤ)) 1 1 +
        (((36 * b36val d1 + b36val d0 : ℕ) : ℚ) +
          (natOfDigits fp : ℚ) / (10 : ℚ) ^ fp.length - 1)) := by
  have hu : pyUpperN c.toNat = c.toNat := by
    unfold pyUpperN
    rw [if_neg (by omega)]
  have hby1 := isDigitC_iff.mp hy1
  have hby0 := isDigitC_iff.mp hy0
  have hyy : pyInt (([c, y1, y0, d1, d0].drop 1).take 2) =
      some ((natOfDigits [y1, y0] : ℤ)) := by
    show pyInt [y1, y0] = _
    exact pyInt_digits (by simp) (by simp [hy1, hy0])
  have hb36 : base36_to_int (([c, y1, y0, d1, d0].drop 3).take 2) =
      Except.ok (36 * b36val d1 + b36val d0) := by
    show base36_to_int [d1, d0] = _
    exact base36_two hd1 hd0
  have hfv := parsePyFloat_zero_dot fp hfp
  -- numeric bounds
  have hyval : natOfDigits [y1, y0] ≤ 99 := by
    rw [natOfDigits_two]
    omega
  have hdval : 36 * b36val d1 + b36val d0 ≤ 1295 := by
    have := b36val_le hd1
    have := b36val_le hd0
    omega
  have hfvlt : (natOfDigits fp : ℚ) / (10 : ℚ) ^ fp.length < 1 := by
    rw [div_lt_one (by positivity)]
    exact_mod_cast natOfDigits_lt hfp
  have hfvge : (0 : ℚ) ≤ (natOfDigits fp : ℚ) / (10 : ℚ) ^ fp.length := by
    positivity
  have hcb : 1800 ≤ centuryOf c.toNat ∧ centuryOf c.toNat ≤ 3500 := by
    unfold centuryOf
    omega
  set year : ℤ := centuryOf c.toNat + (natOfDigits [y1, y0] : ℤ) with hyear
  have hy1800 : 1800 ≤ year ∧ year ≤ 3599 := by
    rw [hyear]
    omega
  have hyrange : ¬(year < 1 ∨ 9999 < year) := by omega
  have hB1 : 657000 ≤ daysBeforeYear year := by
    unfold daysBeforeYear
    omega
  have hB2 : daysBeforeYear year ≤ 1314200 := by
    unfold daysBeforeYear
    omega
  have hord1 : toOrdinal year 1 1 = daysBeforeYear year + 1 := by
    unfold toOrdinal daysBeforeMonth
    simp
  have hordlo : toOrdinal 1 1 1 = 1 := by decide
  have hordhi : toOrdinal 9999 12 31 = 3652059 := by decide
  have hjdrange :
      ¬(jdOfDate year 1 1 + (((36 * b36val d1 + b36val d0 : ℕ) : ℚ) +
          (natOfDigits fp : ℚ) / (10 : ℚ) ^ fp.length - 1) < jdOfDate 1 1 1 ∨
        jdOfDate 9999 12 31 + 1 ≤
          jdOfDate year 1 1 + (((36 * b36val d1 + b36val d0 : ℕ) : ℚ) +
            (natOfDigits fp : ℚ) / (10 : ℚ) ^ fp.length - 1)) := by
    unfold jdOfDate
    rw [hord1, hordlo, hordhi]
    push_neg
    have hc1 : (657001 : ℚ) ≤ ((daysBeforeYear year + 1 : ℤ) : ℚ) := by
      exact_mod_cast by omega
    have hc2 : ((daysBeforeYear year + 1 : ℤ) : ℚ) ≤ 1314201 := by
      exact_mod_cast by omega
    have hd1 : ((36 * b36val d1 + b36val d0 : ℕ) : ℚ) ≤ 1295 := by
      exact_mod_cast hdval
    have hd0 : (0 : ℚ) ≤ ((36 * b36val d1 + b36val d0 : ℕ) : ℚ) := by positivity
    constructor
    · push_cast at hc1 hc2 hd1 hd0 ⊢
      linarith
    · push_cast at hc1 hc2 hd1 hd0 ⊢
      linarith
  unfold mpcepoch2jd
  rw [hstrip]
  unfold mpcepoch2jdStripped
  rw [hfloat, hsplit]
  simp only [hu, hyy, hb36, hfv]
  rw [if_pos (⟨hc1, hc2⟩ : 73 ≤ c.toNat ∧ c.toNat ≤ 90)]
  rw [if_neg hyrange, if_neg hjdrange]


lemma b36_ge48 {c : Char} (h : isB36 c = true) : 48 ≤ c.toNat := by
  rcases isB36_toNat_range h with ⟨a, b⟩ | ⟨a, b⟩ | ⟨a, b⟩ <;> omega

/-- Decode of a bare five-character packed code. -/
lemma decode_packed5 {c y1 y0 d1 d0 : Char}
    (hc1 : 73 ≤ c.toNat) (hc2 : c.toNat ≤ 90)
    (hy1 : isDigitC y1 = true) (hy0 : isDigitC y0 = true)
    (hd1 : isB36 d1 = true) (hd0 : isB36 d0 = true) :
    mpcepoch2jd [c, y1, y0, d1, d0] =
      Except.ok (jdOfDate (centuryOf c.toNat + (natOfDigits [y1, y0] : ℤ)) 1 1 +
        (((36 * b36val d1 + b36val d0 : ℕ) : ℚ) - 1)) := by
  have hby1 := isDigitC_iff.mp hy1
  have hby0 := isDigitC_iff.mp hy0
  have hns : ∀ x ∈ [c, y1, y0, d1, d0], isPySpace x = false := by
    intro x hx
    simp only [List.mem_cons, List.not_mem_nil, or_false] at hx
    rcases hx with rfl | rfl | rfl | rfl | rfl
    · exact notspace_of_ge46 (by omega)
    · exact notspace_of_ge46 (by omega)
    · exact notspace_of_ge46 (by omega)
    · exact notspace_of_ge46 (by have := b36_ge48 hd1; omega)
    · exact notspace_of_ge46 (by have := b36_ge48 hd0; omega)
  have hfloat : parsePyFloat [c, y1, y0, d1, d0] = none :=
    parsePyFloat_head_none _ (isDigitC_false_iff.mpr (by omega)) (by omega) (by omega)
      (by omega) (by omega) (by omega)
  have hdots : ∀ x ∈ [c, y1, y0, d1, d0], (x != '.') = true := by
    intro x hx
    simp only [List.mem_cons, List.not_mem_nil, or_false] at hx
    rcases hx with rfl | rfl | rfl | rfl | rfl
    · exact char_ne_of_toNat_ne (by rw [show ('.' : Char).toNat = 46 from rfl]; omega)
    · exact digit_not_dot hy1
    · exact digit_not_dot hy0
    · exact char_ne_of_toNat_ne
        (by rw [show ('.' : Char).toNat = 46 from rfl]; have := b36_ge48 hd1; omega)
    · exact char_ne_of_toNat_ne
        (by rw [show ('.' : Char).toNat = 46 from rfl]; have := b36_ge48 hd0; omega)
  have hcore := decode_packed_core (pyStrip_eq_self hns) hfloat (pySplitDot_nodot hdots)
    hc1 hc2 hy1 hy0 hd1 hd0 (by decide : (['0'] : List Char).all isDigitC = true)
  rw [hcore, show natOfDigits ['0'] = 0 from by decide]
  norm_num

/-- Decode of a packed code with a fractional-day part. -/
lemma decode_packed_frac {c y1 y0 d1 d0 : Char} {frac : List Char}
    (hc1 : 73 ≤ c.toNat) (hc2 : c.toNat ≤ 90)
    (hy1 : isDigitC y1 = true) (hy0 : isDigitC y0 = true)
    (hd1 : isB36 d1 = true) (hd0 : isB36 d0 = true)
    (hfrac : frac.all isDigitC = true) :
    mpcepoch2jd (c :: y1 :: y0 :: d1 :: d0 :: '.' :: frac) =
      Except.ok (jdOfDate (centuryOf c.toNat + (natOfDigits [y1, y0] : ℤ)) 1 1 +
        (((36 * b36val d1 + b36val d0 : ℕ) : ℚ) +
          (natOfDigits frac : ℚ) / (10 : ℚ) ^ frac.length - 1)) := by
  have hby1 := isDigitC_iff.mp hy1
  have hby0 := isDigitC_iff.mp hy0
  have hfracAll := List.all_eq_true.mp hfrac
  have hns : ∀ x ∈ c :: y1 :: y0 :: d1 :: d0 :: '.' :: frac, isPySpace x = false := by
    intro x hx
    simp only [List.mem_cons] at hx
    rcases hx with rfl | rfl | rfl | rfl | rfl | rfl | hmem
    · exact notspace_of_ge46 (by omega)
    · exact notspace_of_ge46 (by omega)
    · exact notspace_of_ge46 (by omega)
    · exact notspace_of_ge46 (by have := b36_ge48 hd1; omega)
    · exact notspace_of_ge46 (by have := b36_ge48 hd0; omega)
    · exact notspace_of_ge46 (by rw [show ('.' : Char).toNat = 46 from rfl])
    · exact digit_not_space (hfracAll x hmem)
  have hfloat : parsePyFloat (c :: y1 :: y0 :: d1 :: d0 :: '.' :: frac) = none :=
    parsePyFloat_head_none _ (isDigitC_false_iff.mpr (by omega)) (by omega) (by omega)
      (by omega) (by omega) (by omega)
  have hdots : ∀ x ∈ [c, y1, y0, d1, d0], (x != '.') = true := by
    intro x hx
    simp only [List.mem_cons, List.not_mem_nil, or_false] at hx
    rcases hx with rfl | rfl | rfl | rfl | rfl
    · exact char_ne_of_toNat_ne (by rw [show ('.' : Char).toNat = 46 from rfl]; omega)
    · exact digit_not_dot hy1
    · exact digit_not_dot hy0
    · exact char_ne_of_toNat_ne
        (by rw [show ('.' : Char).toNat = 46 from rfl]; have := b36_ge48 hd1; omega)
    · exact char_ne_of_toNat_ne
        (by rw [show ('.' : Char).toNat = 46 from rfl]; have := b36_ge48 hd0; omega)
  have hsplit : pySplitDot (c :: y1 :: y0 :: d1 :: d0 :: '.' :: frac) =
      some ([c, y1, y0, d1, d0], frac) := by
    simpa using pySplitDot_onedot hdots (contains_dot_false hfrac)
  exact decode_packed_core (pyStrip_eq_self hns) hfloat hsplit hc1 hc2 hy1 hy0 hd1 hd0 hfrac


lemma char_ofNat_toNat {n : ℕ} (h : n < 55296) : (Char.ofNat n).toNat = n := by
  unfold Char.ofNat
  rw [dif_pos (Or.inl h)]
  rfl

lemma daysBeforeYear_succ (y : ℤ) :
    daysBeforeYear (y + 1) = daysBeforeYear y + daysInYear y := by
  unfold daysBeforeYear daysInYear
  by_cases hL : isLeap y
  · rw [if_pos hL]
    unfold isLeap at hL
    omega
  · rw [if_neg hL]
    unfold isLeap at hL
    omega

lemma daysBeforeMonth_12 (y : ℤ) :
    daysBeforeMonth y 12 = 334 + (if isLeap y then 1 else 0) := by
  unfold daysBeforeMonth monthLengths
  by_cases hL : isLeap y <;> simp [hL] <;> norm_num

lemma ord_dec31 (y : ℤ) : toOrdinal (y - 1) 12 31 = toOrdinal y 1 1 - 1 := by
  have h1 := daysBeforeYear_succ (y - 1)
  rw [show y - 1 + 1 = y by ring] at h1
  unfold toOrdinal
  rw [daysBeforeMonth_12]
  have h2 : daysBeforeMonth y 1 = 0 := by
    unfold daysBeforeMonth monthLengths
    simp
  rw [h2]
  unfold daysInYear at h1
  by_cases hL : isLeap (y - 1) <;> simp [hL] at h1 ⊢ <;> omega

lemma ord_jan1_succ (y : ℤ) :
    toOrdinal (y + 1) 1 1 = toOrdinal y 1 1 + daysInYear y := by
  have h1 := daysBeforeYear_succ y
  unfold toOrdinal
  have h2 : ∀ z : ℤ, daysBeforeMonth z 1 = 0 := by
    intro z
    unfold daysBeforeMonth monthLengths
    simp
  rw [h2, h2, h1]
  ring


/-- C3: decode returns any bare numeric string unchanged as a Julian
    Date; every valid packed code CYYDDD[.fff] decodes to the Julian Date
    of January 1 of the computed year advanced by (day-of-year - 1) days
    including the fractional part; in particular K141R (century K = 2000,
    year 14, base-36 1R = 63) decodes to the Julian Date of
    2014-03-04T00:00:00 UTC. -/
theorem spec_C3 :
    (∀ (s : List Char) (v : ℚ), parsePyFloat (pyStrip s) = some v →
      mpcepoch2jd s = Except.ok v) ∧
    (∀ (c y1 y0 d1 d0 : Char) (frac : List Char),
      73 ≤ c.toNat → c.toNat ≤ 90 →
      isDigitC y1 = true → isDigitC y0 = true →
      isB36 d1 = true → isB36 d0 = true → frac.all isDigitC = true →
      mpcepoch2jd [c, y1, y0, d1, d0] =
        Except.ok (jdOfDate (centuryOf c.toNat + (natOfDigits [y1, y0] : ℤ)) 1 1 +
          (((36 * b36val d1 + b36val d0 : ℕ) : ℚ) - 1)) ∧
      mpcepoch2jd (c :: y1 :: y0 :: d1 :: d0 :: '.' :: frac) =
        Except.ok (jdOfDate (centuryOf c.toNat + (natOfDigits [y1, y0] : ℤ)) 1 1 +
          (((36 * b36val d1 + b36val d0 : ℕ) : ℚ) +
            (natOfDigits frac : ℚ) / (10 : ℚ) ^ frac.length - 1))) ∧
    mpcepoch2jd ['K', '1', '4', '1', 'R'] = Except.ok (jdOfDate 2014 3 4) := by
  refine ⟨?_, ?_, ?_⟩
  · intro s v h
    unfold mpcepoch2jd mpcepoch2jdStripped
    rw [h]
  · intro c y1 y0 d1 d0 frac hc1 hc2 hy1 hy0 hd1 hd0 hfrac
    exact ⟨decode_packed5 hc1 hc2 hy1 hy0 hd1 hd0,
      decode_packed_frac hc1 hc2 hy1 hy0 hd1 hd0 hfrac⟩
  · rw [decode_packed5 (by decide) (by decide) (by decide) (by decide) (by decide) (by decide)]
    rw [show centuryOf ('K'.toNat) + (natOfDigits ['1', '4'] : ℤ) = 2014 from by decide]
    rw [show (36 * b36val '1' + b36val 'R' : ℕ) = 63 from by decide]
    have h : jdOfDate 2014 1 1 + (((63 : ℕ) : ℚ) - 1) = jdOfDate 2014 3 4 := by
      unfold jdOfDate
      rw [show toOrdinal 2014 3 4 = toOrdinal 2014 1 1 + 62 from by decide]
      push_cast
      ring
    rw [h]

/-- Witness for C3: a bare numeric epoch string passes through, and a
    concrete fractional packed code decodes by the formula. -/
theorem spec_C3_witness :
    mpcepoch2jd ['2', '4', '5', '6', '0', '0', '0'] =
      Except.ok ((natOfDigits ['2', '4', '5', '6', '0', '0', '0'] : ℚ)) ∧
    mpcepoch2jd ['K', '1', '4', '0', '2', '.', '5'] =
      Except.ok (jdOfDate (centuryOf ('K'.toNat) + (natOfDigits ['1', '4'] : ℤ)) 1 1 +
        (((36 * b36val '0' + b36val '2' : ℕ) : ℚ) +
          (natOfDigits ['5'] : ℚ) / (10 : ℚ) ^ (['5'] : List Char).length - 1)) :=
  ⟨spec_C3.1 ['2', '4', '5', '6', '0', '0', '0'] _ rfl,
    (spec_C3.2.1 'K' '1' '4' '0' '2' ['5'] (by decide) (by decide) (by decide)
      (by decide) (by decide) (by decide) (by decide)).2⟩

/-- C10: no range or length validation of the base-36 day-of-year field:
    day-of-year 0 decodes without error to December 31 of the preceding
    year, and any two-character base-36 value (at most 1295) decodes
    without error, rolling past the end of the year into subsequent
    calendar years instead of raising. -/
theorem spec_C10 (c y1 y0 : Char)
    (hc1 : 73 ≤ c.toNat) (hc2 : c.toNat ≤ 90)
    (hy1 : isDigitC y1 = true) (hy0 : isDigitC y0 = true) :
    mpcepoch2jd [c, y1, y0, '0', '0'] =
      Except.ok (jdOfDate (centuryOf c.toNat + (natOfDigits [y1, y0] : ℤ) - 1) 12 31) ∧
    (∀ d1 d0 : Char, isB36 d1 = true → isB36 d0 = true →
      mpcepoch2jd [c, y1, y0, d1, d0] =
        Except.ok (jdOfDate (centuryOf c.toNat + (natOfDigits [y1, y0] : ℤ)) 1 1 +
          (((36 * b36val d1 + b36val d0 : ℕ) : ℚ) - 1)) ∧
      36 * b36val d1 + b36val d0 ≤ 1295 ∧
      (daysInYear (centuryOf c.toNat + (natOfDigits [y1, y0] : ℤ)) <
          ((36 * b36val d1 + b36val d0 : ℕ) : ℤ) →
        jdOfDate (centuryOf c.toNat + (natOfDigits [y1, y0] : ℤ) + 1) 1 1 ≤
          jdOfDate (centuryOf c.toNat + (natOfDigits [y1, y0] : ℤ)) 1 1 +
            (((36 * b36val d1 + b36val d0 : ℕ) : ℚ) - 1))) := by
  constructor
  · rw [decode_packed5 hc1 hc2 hy1 hy0 (by decide) (by decide)]
    rw [show (36 * b36val '0' + b36val '0' : ℕ) = 0 from by decide]
    have h : jdOfDate (centuryOf c.toNat + (natOfDigits [y1, y0] : ℤ)) 1 1 +
        (((0 : ℕ) : ℚ) - 1) =
        jdOfDate (centuryOf c.toNat + (natOfDigits [y1, y0] : ℤ) - 1) 12 31 := by
      unfold jdOfDate
      rw [ord_dec31 (centuryOf c.toNat + (natOfDigits [y1, y0] : ℤ))]
      push_cast
      ring
    rw [h]
  · intro d1 d0 hd1 hd0
    refine ⟨decode_packed5 hc1 hc2 hy1 hy0 hd1 hd0, ?_, ?_⟩
    · have := b36val_le hd1
      have := b36val_le hd0
      omega
    · intro hroll
      have hord := ord_jan1_succ (centuryOf c.toNat + (natOfDigits [y1, y0] : ℤ))
      have hq : (daysInYear (centuryOf c.toNat + (natOfDigits [y1, y0] : ℤ)) : ℚ) + 1 ≤
          ((36 * b36val d1 + b36val d0 : ℕ) : ℚ) := by
        exact_mod_cast hroll
      unfold jdOfDate
      rw [hord]
      push_cast at hq ⊢
      linarith

/-- Witness for C10 at century K, year 14: day field 00 gives
    2013-12-31, and the maximal day field ZZ decodes without error. -/
theorem spec_C10_witness :
    mpcepoch2jd ['K', '1', '4', '0', '0'] =
      Except.ok (jdOfDate (centuryOf ('K'.toNat) + (natOfDigits ['1', '4'] : ℤ) - 1) 12 31) ∧
    mpcepoch2jd ['K', '1', '4', 'Z', 'Z'] =
      Except.ok (jdOfDate (centuryOf ('K'.toNat) + (natOfDigits ['1', '4'] : ℤ)) 1 1 +
        (((36 * b36val 'Z' + b36val 'Z' : ℕ) : ℚ) - 1)) :=
  ⟨(spec_C10 'K' '1' '4' (by decide) (by decide) (by decide) (by decide)).1,
    ((spec_C10 'K' '1' '4' (by decide) (by decide) (by decide) (by decide)).2
      'Z' 'Z' (by decide) (by decide)).1⟩

/-- C4 (amended): every century letter I..Z maps to
    century = 1800 + 100*(letter - I), giving centuries 1800 through 3500
    in 100-year steps, each such century being representable; decode uses
    that century for the year of the decoded date. -/
theorem spec_C4 :
    (∀ c : Char, 73 ≤ c.toNat → c.toNat ≤ 90 →
      centuryOf c.toNat = 1800 + 100 * ((c.toNat : ℤ) - 73) ∧
      1800 ≤ centuryOf c.toNat ∧ centuryOf c.toNat ≤ 3500 ∧
      mpcepoch2jd [c, '0', '0', '0', '1'] =
        Except.ok (jdOfDate (centuryOf c.toNat) 1 1)) ∧
    (∀ k : ℤ, 0 ≤ k → k ≤ 17 →
      ∃ c : Char, 73 ≤ c.toNat ∧ c.toNat ≤ 90 ∧ centuryOf c.toNat = 1800 + 100 * k) := by
  constructor
  · intro c h1 h2
    refine ⟨rfl, by unfold centuryOf; omega, by unfold centuryOf; omega, ?_⟩
    rw [decode_packed5 h1 h2 (by decide) (by decide) (by decide) (by decide)]
    rw [show (natOfDigits ['0', '0'] : ℤ) = 0 from by decide]
    rw [show (36 * b36val '0' + b36val '1' : ℕ) = 1 from by decide]
    have h : jdOfDate (centuryOf c.toNat + 0) 1 1 + (((1 : ℕ) : ℚ) - 1) =
        jdOfDate (centuryOf c.toNat) 1 1 := by
      rw [add_zero]
      push_cast
      ring
    rw [h]
  · intro k hk0 hk17
    refine ⟨Char.ofNat (73 + k.toNat), ?_, ?_, ?_⟩
    · rw [char_ofNat_toNat (by omega)]
      omega
    · rw [char_ofNat_toNat (by omega)]
      omega
    · rw [char_ofNat_toNat (by omega)]
      unfold centuryOf
      push_cast
      omega

/-- Counterexample for C4 as stated: no century letter in I..Z encodes
    the century 3900; the range stops at 3500. -/
theorem spec_C4_cex :
    ¬ ∃ c : Char, 73 ≤ c.toNat ∧ c.toNat ≤ 90 ∧ centuryOf c.toNat = 3900 := by
  rintro ⟨c, h1, h2, h3⟩
  unfold centuryOf at h3
  omega

/-- Witness for C4 at the letter K. -/
theorem spec_C4_witness :
    centuryOf ('K'.toNat) = 2000 ∧
    mpcepoch2jd ['K', '0', '0', '0', '1'] = Except.ok (jdOfDate 2000 1 1) := by
  have h := spec_C4.1 'K' (by decide) (by decide)
  refine ⟨by decide, ?_⟩
  rw [show (2000 : ℤ) = centuryOf ('K'.toNat) from by decide]
  exact h.2.2.2


/-- C5: decode first trims surrounding whitespace; for a non-numeric code
    it raises a decode failure when the century letter falls outside I..Z
    (compared after uppercasing), and when any character of the
    two-character day-of-year field is not a case-insensitive base-36
    digit. -/
theorem spec_C5 (code : List Char) :
    mpcepoch2jd code = mpcepoch2jd (pyStrip code) ∧
    (parsePyFloat (pyStrip code) = none →
      (∀ (ip fp rest : List Char) (c0 : Char),
        pySplitDot (pyStrip code) = some (ip, fp) → ip = c0 :: rest →
        ¬(73 ≤ pyUpperN c0.toNat ∧ pyUpperN c0.toNat ≤ 90) →
        ∃ msg, mpcepoch2jd code = Except.error msg) ∧
      (∀ (ip fp : List Char) (x : Char),
        pySplitDot (pyStrip code) = some (ip, fp) →
        x ∈ (ip.drop 3).take 2 → isB36 x = false →
        ∃ msg, mpcepoch2jd code = Except.error msg)) := by
  refine ⟨(mpcepoch2jd_strip_invariant code).symm, fun hfl => ⟨?_, ?_⟩⟩
  · intro ip fp rest c0 hsplit hip hbad
    subst hip
    refine ⟨"Unknown century code", ?_⟩
    unfold mpcepoch2jd mpcepoch2jdStripped
    simp only [hfl, hsplit]
    rw [if_neg hbad]
  · intro ip fp x hsplit hx hbad
    rcases ip with _ | ⟨c0, rest⟩
    · simp at hx
    · by_cases hcent : 73 ≤ pyUpperN c0.toNat ∧ pyUpperN c0.toNat ≤ 90
      · cases hpy : pyInt (((c0 :: rest).drop 1).take 2) with
        | none =>
          refine ⟨"invalid literal for int", ?_⟩
          unfold mpcepoch2jd mpcepoch2jdStripped
          simp only [hfl, hsplit, hpy]
          rw [if_pos hcent]
        | some yy =>
          obtain ⟨m, hm⟩ := base36_err ⟨x, hx, hbad⟩
          refine ⟨m, ?_⟩
          unfold mpcepoch2jd mpcepoch2jdStripped
          simp only [hfl, hsplit, hpy, hm]
          rw [if_pos hcent]
      · refine ⟨"Unknown century code", ?_⟩
        unfold mpcepoch2jd mpcepoch2jdStripped
        simp only [hfl, hsplit]
        rw [if_neg hcent]

/-- Witness for C5: a whitespace-padded code with century letter A fails,
    and K14!! fails on the day-of-year field. -/
theorem spec_C5_witness :
    (∃ msg, mpcepoch2jd [' ', 'A', '1', '4', '0', '0', ' '] = Except.error msg) ∧
    (∃ msg, mpcepoch2jd ['K', '1', '4', '!', '!'] = Except.error msg) :=
  ⟨((spec_C5 [' ', 'A', '1', '4', '0', '0', ' ']).2 (by decide)).1
      ['A', '1', '4', '0', '0'] ['0'] ['1', '4', '0', '0'] 'A' (by decide) rfl (by decide),
    ((spec_C5 ['K', '1', '4', '!', '!']).2 (by decide)).2
      ['K', '1', '4', '!', '!'] ['0'] '!' (by decide) (by decide) (by decide)⟩


end MPP
